import Mathlib

/-!
Verification development for the RAG vector-store slice of the repository:
`app/utils/text_splitter.py`, `app/services/embeddings.py`,
`app/services/vector_store.py`, `app/pipelines/ingest.py`,
`app/pipelines/retrieve.py`.

Modelling conventions:
* Python floats are modelled as exact real numbers (`ℝ`); `astype(np.float32)`
  is modelled as the identity.  Claims whose truth depends on IEEE-754
  rounding are out of scope of this embedding.
* The `VectorStore` is modelled in its NumPy fallback mode (`faiss` import
  fails), which is the backend the spec's Naive-mode claims address.
* File system effects are modelled by an explicit `IndexDir` value holding
  the optional contents of `meta.json` and `vectors.npy`.
* Raised exceptions are modelled with `Except String` (or, for
  `VectorStore.add`, by returning the unchanged store next to the error,
  mirroring that the `raise` happens before any mutation).
-/

namespace RagStore

/-! ### `app/utils/text_splitter.py` -/

/-- A document as produced by the document loader: `{"path": ..., "text": ...}`. -/
structure Doc where
  path : String
  text : String
deriving DecidableEq

/-- A chunk as produced by `split_texts`: `{"source": ..., "content": ...}`. -/
structure Chunk where
  source : String
  content : String
deriving DecidableEq

/-- Python truthiness of `chunk.strip()`: true iff some character is not whitespace. -/
def nonblank (cs : List Char) : Bool :=
  cs.any (fun c => !c.isWhitespace)

/-- The `while start < len(text)` loop of `split_texts`, for one document's
character list.  The loop keeps the invariant `end = start + chunk_size`, so
each emitted window is `text[start : start + chunk_size]` and the start
advances by `chunk_size - chunk_overlap`.  The loop is only reached when
`chunk_overlap < chunk_size` (the function raises otherwise), which is the
hypothesis `h` guaranteeing termination. -/
def splitLoop (text : List Char) (size overlap : ℕ) (h : overlap < size) :
    ℕ → List (List Char)
  | start =>
    if hlt : start < text.length then
      (if nonblank ((text.drop start).take size) then [(text.drop start).take size] else [])
        ++ splitLoop text size overlap h (start + (size - overlap))
    else []
  termination_by start => text.length - start
  decreasing_by
    have hs : 0 < size - overlap := Nat.sub_pos_of_lt h
    omega

/-- Shallow embedding of `split_texts` (text_splitter.py, lines 12-47).
The two `raise ValueError` guards become `.error`; sizes are naturals, so the
`chunk_overlap < 0` guard is vacuous here. -/
def split_texts (docs : List Doc) (size overlap : ℕ) : Except String (List Chunk) :=
  if size = 0 then
    .error "ValueError: chunk_size must be positive and chunk_overlap nonnegative"
  else if hle : size ≤ overlap then
    .error "ValueError: chunk_overlap must be smaller than chunk_size"
  else
    .ok (docs.flatMap (fun d =>
      (splitLoop d.text.data size overlap (Nat.lt_of_not_le (fun hc => hle hc)) 0).map
        (fun cs => Chunk.mk d.path (String.mk cs))))

/-- The window `text[start : start + size]`. -/
def windowAt (text : List Char) (size start : ℕ) : List Char :=
  (text.drop start).take size

/-- The start offsets `0, step, 2*step, ...` truncated at `len`:
all multiples of `step` below `len`. -/
def chunkStarts (len step : ℕ) : List ℕ :=
  (List.range ((len + step - 1) / step)).map (fun j => j * step)

/-! ### `app/services/embeddings.py`, fallback strategy: MD5 seed -/

/-- Reduction to a 32-bit word. -/
def w32 (n : ℕ) : ℕ := n % 4294967296

/-- Bitwise complement on 32-bit words. -/
def bnot32 (n : ℕ) : ℕ := Nat.xor (w32 n) 4294967295

/-- Left rotation of a 32-bit word by `s` places (for `x < 2^32`, `s ≤ 32`). -/
def rotl32 (x s : ℕ) : ℕ := (x % 2 ^ (32 - s)) * 2 ^ s + x / 2 ^ (32 - s)

/-- The MD5 sine-derived constant table `K` (RFC 1321). -/
def md5K : List ℕ :=
  [0xd76aa478, 0xe8c7b756, 0x242070db, 0xc1bdceee,
   0xf57c0faf, 0x4787c62a, 0xa8304613, 0xfd469501,
   0x698098d8, 0x8b44f7af, 0xffff5bb1, 0x895cd7be,
   0x6b901122, 0xfd987193, 0xa679438e, 0x49b40821,
   0xf61e2562, 0xc040b340, 0x265e5a51, 0xe9b6c7aa,
   0xd62f105d, 0x02441453, 0xd8a1e681, 0xe7d3fbc8,
   0x21e1cde6, 0xc33707d6, 0xf4d50d87, 0x455a14ed,
   0xa9e3e905, 0xfcefa3f8, 0x676f02d9, 0x8d2a4c8a,
   0xfffa3942, 0x8771f681, 0x6d9d6122, 0xfde5380c,
   0xa4beea44, 0x4bdecfa9, 0xf6bb4b60, 0xbebfbc70,
   0x289b7ec6, 0xeaa127fa, 0xd4ef3085, 0x04881d05,
   0xd9d4d039, 0xe6db99e5, 0x1fa27cf8, 0xc4ac5665,
   0xf4292244, 0x432aff97, 0xab9423a7, 0xfc93a039,
   0x655b59c3, 0x8f0ccc92, 0xffeff47d, 0x85845dd1,
   0x6fa87e4f, 0xfe2ce6e0, 0xa3014314, 0x4e0811a1,
   0xf7537e82, 0xbd3af235, 0x2ad7d2bb, 0xeb86d391]

/-- The MD5 per-step rotation amounts. -/
def md5S : List ℕ :=
  [7, 12, 17, 22, 7, 12, 17, 22, 7, 12, 17, 22, 7, 12, 17, 22,
   5, 9, 14, 20, 5, 9, 14, 20, 5, 9, 14, 20, 5, 9, 14, 20,
   4, 11, 16, 23, 4, 11, 16, 23, 4, 11, 16, 23, 4, 11, 16, 23,
   6, 10, 15, 21, 6, 10, 15, 21, 6, 10, 15, 21, 6, 10, 15, 21]

/-- The MD5 round function for step `i`. -/
def md5F (i b c d : ℕ) : ℕ :=
  if i < 16 then Nat.lor (Nat.land b c) (Nat.land (bnot32 b) d)
  else if i < 32 then Nat.lor (Nat.land d b) (Nat.land (bnot32 d) c)
  else if i < 48 then Nat.xor b (Nat.xor c d)
  else Nat.xor c (Nat.lor b (bnot32 d))

/-- The MD5 message-word schedule for step `i`. -/
def md5G (i : ℕ) : ℕ :=
  if i < 16 then i
  else if i < 32 then (5 * i + 1) % 16
  else if i < 48 then (3 * i + 5) % 16
  else (7 * i) % 16

/-- One MD5 step on the register quadruple. -/
def md5Step (M : List ℕ) (st : ℕ × ℕ × ℕ × ℕ) (i : ℕ) : ℕ × ℕ × ℕ × ℕ :=
  match st with
  | (a, b, c, d) =>
    let f := w32 (a + md5F i b c d + md5K.getD i 0 + M.getD (md5G i) 0)
    (d, w32 (b + rotl32 f (md5S.getD i 0)), b, c)

/-- Processing of one 16-word block. -/
def md5Block (st : ℕ × ℕ × ℕ × ℕ) (M : List ℕ) : ℕ × ℕ × ℕ × ℕ :=
  match (List.range 64).foldl (md5Step M) st with
  | (a, b, c, d) =>
    (w32 (st.1 + a), w32 (st.2.1 + b), w32 (st.2.2.1 + c), w32 (st.2.2.2 + d))

/-- Little-endian byte decomposition, `count` bytes. -/
def toLEBytes (n : ℕ) : ℕ → List ℕ
  | 0 => []
  | k + 1 => n % 256 :: toLEBytes (n / 256) k

/-- Grouping of a little-endian byte list into 32-bit words. -/
def bytesToWords : List ℕ → List ℕ
  | b0 :: b1 :: b2 :: b3 :: rest =>
      (b0 + 256 * (b1 + 256 * (b2 + 256 * b3))) :: bytesToWords rest
  | _ => []

/-- MD5 padding: a `0x80` byte, zeros to 56 mod 64, then the bit length as
eight little-endian bytes. -/
def md5Pad (msg : List ℕ) : List ℕ :=
  msg ++ 0x80 :: List.replicate ((119 - msg.length % 64) % 64) 0
      ++ toLEBytes (msg.length * 8) 8

/-- Splitting a byte list into 64-byte blocks. -/
def chunk64 : List ℕ → List (List ℕ)
  | [] => []
  | b :: rest => ((b :: rest).take 64) :: chunk64 ((b :: rest).drop 64)
  termination_by l => l.length
  decreasing_by simp; omega

/-- The 16-byte MD5 digest of a byte string. -/
def md5Digest (msg : List ℕ) : List ℕ :=
  match (chunk64 (md5Pad msg)).foldl (fun st blk => md5Block st (bytesToWords blk))
      (0x67452301, 0xefcdab89, 0x98badcfe, 0x10325476) with
  | (a, b, c, d) => toLEBytes a 4 ++ toLEBytes b 4 ++ toLEBytes c 4 ++ toLEBytes d 4

/-- Embedding of `int(hashlib.md5(t.encode("utf-8")).hexdigest(), 16) % (2 ** 32)`:
the digest read as a big-endian integer, reduced mod `2^32`. -/
def md5Seed (msg : List ℕ) : ℕ :=
  ((md5Digest msg).foldl (fun acc b => acc * 256 + b) 0) % 4294967296

/-! ### `np.random.RandomState(h)` (NumPy legacy MT19937) -/

/-- The MT19937 key initialisation used by `np.random.RandomState` for an
integer seed (`mt19937_seed`): `mt[p] = x_p` with `x_0 = seed mod 2^32` and
`x_{p+1} = (1812433253 * (x_p xor (x_p >> 30)) + p + 1) mod 2^32`. -/
def mtInitGo (x p : ℕ) : ℕ → List ℕ
  | 0 => []
  | k + 1 => x :: mtInitGo (w32 (1812433253 * Nat.xor x (x / 2 ^ 30) + p + 1)) (p + 1) k

/-- The 624-word seeded key of `RandomState(seed)`. -/
def mtInitList (seed : ℕ) : List ℕ := mtInitGo (w32 seed) 0 624

/-- One in-place regeneration pass of the MT19937 key (the `mt19937_gen`
loop): sequential updates, so later entries read already-updated words. -/
def mtTwist (mt : Array ℕ) : Array ℕ :=
  (List.range 624).foldl (fun a i =>
    let y := Nat.lor (Nat.land (a.getD i 0) 0x80000000)
        (Nat.land (a.getD ((i + 1) % 624) 0) 0x7fffffff)
    let v := Nat.xor (Nat.xor (a.getD ((i + 397) % 624) 0) (y / 2))
        (if y % 2 = 1 then 0x9908b0df else 0)
    a.setD i v) mt

/-- The MT19937 tempering of one raw key word. -/
def mtTemper (y : ℕ) : ℕ :=
  let y1 := Nat.xor y (y / 2 ^ 11)
  let y2 := Nat.xor y1 (Nat.land (w32 (y1 * 2 ^ 7)) 0x9d2c5680)
  let y3 := Nat.xor y2 (Nat.land (w32 (y2 * 2 ^ 15)) 0xefc60000)
  Nat.xor y3 (y3 / 2 ^ 18)

/-- Tempered outputs of `k` successive regeneration blocks. -/
def mtBlocks (st : Array ℕ) : ℕ → List ℕ
  | 0 => []
  | k + 1 =>
    let t := mtTwist st
    t.toList.map mtTemper ++ mtBlocks t k

/-- The first `n` 32-bit outputs of `RandomState(seed)` (the seeded state has
an exhausted position, so the first call already regenerates). -/
def mtOutputs (seed n : ℕ) : List ℕ :=
  (mtBlocks (List.toArray (mtInitList seed)) ((n + 623) / 624)).take n

/-- The `rk_double` construction: two 32-bit outputs make one uniform double,
`((a >> 5) * 2^26 + (b >> 6)) / 2^53`, exact in `ℚ`. -/
def randPairs : List ℕ → List ℚ
  | a :: b :: rest =>
      (((a / 2 ^ 5) * 67108864 + b / 2 ^ 6 : ℕ) : ℚ) / 9007199254740992 :: randPairs rest
  | _ => []

/-- The `n` uniform draws of `RandomState(seed).rand(n)`. -/
def mtDoubles (seed n : ℕ) : List ℚ := randPairs (mtOutputs seed (2 * n))

/-! ### `app/services/embeddings.py` -/

/-- The module-level state of NumPy's global generator (`np.random.*`).  A
process run carries such a state; the fallback strategy constructs a local
`RandomState(h)` and never reads or writes the global one, which is exactly
what the determinism theorems below make explicit. -/
structure NpGlobalRandom where
  state : List ℕ

/-- `EmbeddingsService` in fallback mode: `sentence_transformers` failed to
import, so `_model is None` and `dim` keeps its default 384. -/
structure EmbeddingsService where
  model_name : String
  dim : ℕ

/-- The constructor `EmbeddingsService(model_name)` on the fallback path. -/
def mkEmbeddingsService (name : String) : EmbeddingsService := ⟨name, 384⟩

/-- UTF-8 bytes of a text, as naturals. -/
def utf8Bytes (t : String) : List ℕ := t.toUTF8.toList.map (fun b => b.toNat)

/-- The pre-normalization draw `rng.rand(self.dim)` with
`rng = np.random.RandomState(md5-seed of the text)`. -/
noncomputable def rawVec (svc : EmbeddingsService) (t : String) : List ℝ :=
  List.map (fun q : ℚ => (q : ℝ)) (mtDoubles (md5Seed (utf8Bytes t)) svc.dim)

/-- `np.linalg.norm` of a vector (also the Frobenius norm of a 1-row matrix). -/
noncomputable def l2norm (v : List ℝ) : ℝ :=
  Real.sqrt ((v.map (fun x => x ^ 2)).sum)

/-- The defensive normalization `v /= np.linalg.norm(v) + 1e-9`. -/
noncomputable def normalizeVec (v : List ℝ) : List ℝ :=
  v.map (fun x => x / (l2norm v + 1e-9))

/-- The fallback embedding of one text (the body of the `for t in texts_list`
loop in `EmbeddingsService.embed`, lines 66-72). -/
noncomputable def EmbeddingsService.embedOne (svc : EmbeddingsService) (t : String) :
    List ℝ :=
  normalizeVec (rawVec svc t)

/-- Embedding of `EmbeddingsService.embed` in fallback mode.  The global
NumPy generator `g` is threaded to record that the code never consults it.
`np.vstack` of an empty list raises `ValueError`, hence the error case. -/
noncomputable def EmbeddingsService.embed (svc : EmbeddingsService)
    (g : NpGlobalRandom) (texts : List String) : Except String (List (List ℝ)) :=
  if texts.isEmpty then
    .error "ValueError: need at least one array to concatenate"
  else .ok (texts.map (fun t => svc.embedOne t))

/-! ### `app/services/vector_store.py` (NumPy fallback backend) -/

/-- One metadata record of the sidecar list: `{"source": ..., "content": ...}`. -/
structure MetaR where
  source : String
  content : String
deriving DecidableEq

instance : Inhabited MetaR := ⟨⟨"", ""⟩⟩

/-- A NumPy array as far as `vector_store.py` inspects it: its shape tuple
(`ndim = shape.length`) and, for the two-dimensional case, its rows. -/
structure NpMat where
  shape : List ℕ
  data : List (List ℝ)

/-- The store's state: `self.dim`, `self._metas`, `self._vectors`
(`None` until the first `add`, matching the constructor). -/
structure VectorStore where
  dim : ℕ
  metas : List MetaR
  vectors : Option (List (List ℝ))

/-- The constructor `VectorStore(dim)` when the `faiss` import fails:
NumPy fallback mode for the whole lifetime of the instance. -/
def VectorStore.new (dim : ℕ) : VectorStore := ⟨dim, [], none⟩

/-- Embedding of `VectorStore.add` (lines 45-64).  The result pairs the
post-call state with the raised error, if any; a `raise` fires before any
mutation, so on error the returned state is the argument unchanged.
`np.vstack` is vertical concatenation; `astype(np.float32)` is the identity
in this model. -/
def VectorStore.add (s : VectorStore) (v : NpMat) (ms : List MetaR) :
    VectorStore × Option String :=
  if v.shape.length ≠ 2 ∨ v.shape.getD 1 0 ≠ s.dim then
    (s, some "ValueError: 向量维度不匹配或输入形状无效")
  else if ms.length ≠ v.shape.getD 0 0 then
    (s, some "ValueError: 元数据数量必须与向量数量一致")
  else
    ({ s with
        metas := s.metas ++ ms,
        vectors := some (match s.vectors with
          | none => v.data
          | some m => m ++ v.data) }, none)

/-- The contents of the index directory: `meta.json` and `vectors.npy`,
each possibly absent. -/
structure IndexDir where
  meta : Option (List MetaR)
  vecs : Option (List (List ℝ))

/-- The empty (or nonexistent) index directory. -/
def IndexDir.empty : IndexDir := ⟨none, none⟩

/-- Embedding of `VectorStore.save` (lines 66-83), fallback branch: writes
the metadata list and the vector matrix (`np.zeros((0, dim))`, i.e. zero
rows, when `self._vectors is None`). -/
def VectorStore.save (s : VectorStore) : IndexDir :=
  ⟨some s.metas, some (s.vectors.getD [])⟩

/-- Embedding of `VectorStore.load` (lines 85-107), fallback branch: each
file is read if present; a missing `meta.json` yields `[]`, a missing
`vectors.npy` yields the zero-row matrix.  It never fails. -/
def VectorStore.load (s : VectorStore) (d : IndexDir) : VectorStore :=
  { dim := s.dim, metas := d.meta.getD [], vectors := some (d.vecs.getD []) }

/-- Dot product (one entry of `m @ q.T`). -/
def dotp (xs ys : List ℝ) : ℝ := (List.zipWith (fun a b => a * b) xs ys).sum

/-- Model of `np.argsort(-sims)`: indices sorted by descending value.  The
model resolves ties by ascending index (a stable order); NumPy's default
`kind='quicksort'` does not document any tie order and is stable only below
its small-array insertion-sort threshold, so theorems below do not rely on
the tie order except where they are explicitly about this model. -/
noncomputable def argsortDesc (sims : List ℝ) : List ℕ :=
  @List.insertionSort ℕ
    (fun i j => sims.getD j 0 < sims.getD i 0 ∨ (sims.getD i 0 = sims.getD j 0 ∧ i ≤ j))
    (fun _ _ => Classical.propDecidable _)
    (List.range sims.length)

/-- Embedding of `VectorStore.search` (lines 109-141), fallback branch:
shape guard, empty-store early return, defensive normalization of the query
row and of every stored row, dot products, and the top-`k` by descending
similarity. -/
noncomputable def VectorStore.search (s : VectorStore) (q : NpMat) (k : ℕ) :
    Except String (List (ℝ × MetaR)) :=
  if q.shape.length ≠ 2 ∨ q.shape.getD 0 0 ≠ 1 ∨ q.shape.getD 1 0 ≠ s.dim then
    .error "ValueError: 查询向量维度无效，应为形状 (1, dim)"
  else
    match s.vectors with
    | none => .ok []
    | some m =>
      if s.metas = [] then .ok []
      else
        let qn := normalizeVec (q.data.headD [])
        let sims := (m.map normalizeVec).map (fun row => dotp row qn)
        .ok (((argsortDesc sims).take k).map
          (fun i => (sims.getD i 0, s.metas.getD i default)))

/-! ### `app/pipelines/ingest.py` and `app/pipelines/retrieve.py` -/

/-- The configuration values `run_ingest` consumes. -/
structure AppConfig where
  chunk_size : ℕ
  chunk_overlap : ℕ
  embedding_model : String

/-- Embedding of `run_ingest` (ingest.py, lines 22-52), with the loaded
documents passed in for the external `load_documents` collaborator and the
fallback embedding strategy in effect.  `.ok none` models the early
`return` that writes no files; `.ok (some d)` models a completed run whose
`save` wrote the directory contents `d`.  (The initial
`os.makedirs(index_dir)` creates the directory itself but no files, and is
not modelled.) -/
noncomputable def run_ingest (g : NpGlobalRandom) (docs : List Doc)
    (cfg : AppConfig) : Except String (Option IndexDir) :=
  if docs.isEmpty then .ok none
  else
    match split_texts docs cfg.chunk_size cfg.chunk_overlap with
    | .error e => .error e
    | .ok chunks =>
      let svc := mkEmbeddingsService cfg.embedding_model
      match svc.embed g (chunks.map (fun c => c.content)) with
      | .error e => .error e
      | .ok vectors =>
        let d := (vectors.headD []).length
        let store := VectorStore.new d
        match store.add ⟨[vectors.length, d], vectors⟩
            (chunks.map (fun c => ⟨c.source, c.content⟩)) with
        | (_, some e) => .error e
        | (s1, none) => .ok (some s1.save)

/-- Embedding of `run_retrieve` (retrieve.py, lines 15-43): embed the query,
construct a store of the query's dimension, load the directory, search, and
extract `content` (falling back to a source label when `content` is falsy). -/
noncomputable def run_retrieve (g : NpGlobalRandom) (svc : EmbeddingsService)
    (query : String) (d : IndexDir) (topk : ℕ) : Except String (List String) :=
  match svc.embed g [query] with
  | .error e => .error e
  | .ok rows =>
    let dimq := (rows.headD []).length
    let store := (VectorStore.new dimq).load d
    match store.search ⟨[rows.length, dimq], rows⟩ topk with
    | .error e => .error e
    | .ok res =>
      .ok (res.map (fun p => if p.2.content ≠ "" then p.2.content else
        "来源: " ++ p.2.source))

/-! ### Derived notions used by the claims -/

/-- The parallel-arrays invariant: the number of stored vector rows equals
the number of metadata records (`None` counts as zero rows). -/
def storeInv (s : VectorStore) : Prop :=
  (s.vectors.getD []).length = s.metas.length

/-- States built from a fresh store by successful `add` calls — "an index
built by adding vectors with metadata". -/
inductive ReachableStore : VectorStore → Prop
  | new (dim : ℕ) : ReachableStore (VectorStore.new dim)
  | step (s : VectorStore) (v : NpMat) (ms : List MetaR) (s' : VectorStore) :
      ReachableStore s → s.add v ms = (s', none) → ReachableStore s'

/-! ### Helper lemmas -/

theorem l2norm_nonneg (v : List ℝ) : 0 ≤ l2norm v := Real.sqrt_nonneg _

theorem sumsq_nonneg (w : List ℝ) : 0 ≤ (w.map (fun x => x ^ 2)).sum := by
  apply List.sum_nonneg
  intro x hx
  simp only [List.mem_map] at hx
  obtain ⟨y, _, rfl⟩ := hx
  positivity

theorem l2norm_map_div (w : List ℝ) (c : ℝ) (hc : 0 < c) :
    l2norm (w.map (fun x => x / c)) = l2norm w / c := by
  unfold l2norm
  rw [List.map_map]
  have h1 : ((fun x => x ^ 2) ∘ fun x => x / c) = fun x => x ^ 2 * (c ^ 2)⁻¹ := by
    funext x
    simp only [Function.comp_apply, div_pow, div_eq_mul_inv, mul_pow, inv_pow]
  rw [h1, List.sum_map_mul_right, ← div_eq_mul_inv,
    Real.sqrt_div (sumsq_nonneg w), Real.sqrt_sq hc.le]

theorem l2norm_eps_pos (v : List ℝ) : (0 : ℝ) < l2norm v + 1e-9 := by
  have := l2norm_nonneg v
  have h9 : (0 : ℝ) < 1e-9 := by norm_num
  linarith

theorem l2norm_normalizeVec (v : List ℝ) :
    l2norm (normalizeVec v) = l2norm v / (l2norm v + 1e-9) := by
  unfold normalizeVec
  exact l2norm_map_div v _ (l2norm_eps_pos v)

theorem l2norm_normalizeVec_lt_one (v : List ℝ) : l2norm (normalizeVec v) < 1 := by
  rw [l2norm_normalizeVec]
  have h0 : (0 : ℝ) ≤ l2norm v := l2norm_nonneg v
  rw [div_lt_one (l2norm_eps_pos v)]
  norm_num

theorem windowCount_succ (len start step : ℕ) (hstep : 0 < step) (hlt : start < len) :
    (len - start + step - 1) / step = (len - (start + step) + step - 1) / step + 1 := by
  have hr : len - (start + step) = len - start - step := by omega
  rw [hr]
  rcases le_or_lt (len - start) step with hle | hgt
  · have h1 : len - start - step = 0 := by omega
    rw [h1]
    rw [show len - start + step - 1 = (len - start - 1) + step by omega,
      Nat.add_div_right _ hstep,
      Nat.div_eq_of_lt (show len - start - 1 < step by omega),
      Nat.div_eq_of_lt (show 0 + step - 1 < step by omega)]
  · rw [show len - start + step - 1 = (len - start - 1) + step by omega,
      Nat.add_div_right _ hstep]
    rw [show len - start - step + step - 1 = (len - start - 1 - step) + step by omega,
      Nat.add_div_right _ hstep]
    have h3 : (len - start - 1) / step = (len - start - 1 - step) / step + 1 := by
      conv_lhs => rw [show len - start - 1 = (len - start - 1 - step) + step by omega]
      exact Nat.add_div_right _ hstep
    omega

theorem splitLoop_eq (text : List Char) (size overlap : ℕ) (h : overlap < size)
    (start : ℕ) :
    splitLoop text size overlap h start =
      ((List.range ((text.length - start + (size - overlap) - 1) / (size - overlap))).map
        (fun j => windowAt text size (start + j * (size - overlap)))).filter nonblank := by
  have hstep : 0 < size - overlap := by omega
  have main : ∀ n start, text.length - start ≤ n →
      splitLoop text size overlap h start =
        ((List.range ((text.length - start + (size - overlap) - 1) / (size - overlap))).map
          (fun j => windowAt text size (start + j * (size - overlap)))).filter nonblank := by
    intro n
    induction n with
    | zero =>
      intro start hle
      rw [splitLoop]
      rw [dif_neg (by omega)]
      rw [show text.length - start = 0 by omega]
      rw [Nat.div_eq_of_lt (by omega)]
      rfl
    | succ n ih =>
      intro start hle
      by_cases hlt : start < text.length
      · rw [splitLoop]
        rw [dif_pos hlt]
        rw [ih (start + (size - overlap)) (by omega)]
        rw [windowCount_succ text.length start (size - overlap) hstep hlt]
        rw [List.range_succ_eq_map, List.map_cons, List.map_map, List.filter_cons]
        have hw0 : windowAt text size (start + 0 * (size - overlap)) =
            (text.drop start).take size := by
          simp [windowAt]
        have hfs : ((fun j => windowAt text size (start + j * (size - overlap))) ∘
              Nat.succ) =
            fun j => windowAt text size (start + (size - overlap) + j * (size - overlap)) := by
          funext j
          simp only [Function.comp_apply, Nat.succ_eq_add_one]
          congr 1
          ring
        rw [hfs, hw0]
        by_cases hb : nonblank ((text.drop start).take size)
        · rw [if_pos hb]
          simp [hb]
        · rw [if_neg (by simp [hb])]
          simp [hb]
      · rw [splitLoop]
        rw [dif_neg hlt]
        rw [show text.length - start = 0 by omega]
        rw [Nat.div_eq_of_lt (by omega)]
        rfl
  exact main (text.length - start) start le_rfl

theorem split_texts_single (p text : String) (size overlap : ℕ) (h : overlap < size) :
    split_texts [⟨p, text⟩] size overlap =
      .ok (((((chunkStarts text.data.length (size - overlap)).map
          (fun st => windowAt text.data size st)).filter nonblank)).map
        (fun cs => Chunk.mk p (String.mk cs))) := by
  unfold split_texts
  rw [if_neg (by omega)]
  rw [dif_neg (by omega)]
  simp only [List.flatMap_cons, List.flatMap_nil, List.append_nil]
  rw [splitLoop_eq]
  unfold chunkStarts
  rw [List.map_map]
  simp only [Nat.sub_zero]
  have hfe : ((fun st => windowAt text.data size st) ∘ fun j => j * (size - overlap)) =
      fun j => windowAt text.data size (0 + j * (size - overlap)) := by
    funext j
    simp
  rw [hfe]

theorem mtInitGo_length : ∀ (k x p : ℕ), (mtInitGo x p k).length = k
  | 0, _, _ => rfl
  | k + 1, x, p => by
    simp only [mtInitGo, List.length_cons]
    rw [mtInitGo_length k]

theorem mtTwist_size (a : Array ℕ) : (mtTwist a).size = a.size := by
  unfold mtTwist
  generalize List.range 624 = l
  induction l generalizing a with
  | nil => rfl
  | cons i l ih =>
    rw [List.foldl_cons, ih]
    simp [Array.setD]
    split <;> simp

theorem mtBlocks_length :
    ∀ (k : ℕ) (st : Array ℕ), st.size = 624 → (mtBlocks st k).length = k * 624
  | 0, _, _ => rfl
  | k + 1, st, hst => by
    simp only [mtBlocks, List.length_append, List.length_map, Array.length_toList]
    rw [mtBlocks_length k (mtTwist st) (by rw [mtTwist_size]; exact hst)]
    rw [mtTwist_size, hst]
    ring

theorem mtOutputs_length (seed n : ℕ) : (mtOutputs seed n).length = n := by
  unfold mtOutputs
  rw [List.length_take]
  rw [mtBlocks_length _ _ (by simp [mtInitList, mtInitGo_length])]
  have hd := Nat.div_add_mod (n + 623) 624
  have hm : (n + 623) % 624 < 624 := Nat.mod_lt _ (by norm_num)
  omega

theorem randPairs_length : ∀ l : List ℕ, (randPairs l).length = l.length / 2
  | [] => by norm_num [randPairs]
  | [_] => by norm_num [randPairs]
  | _ :: _ :: rest => by
    simp only [randPairs, List.length_cons]
    rw [randPairs_length rest]
    omega

theorem mtDoubles_length (seed n : ℕ) : (mtDoubles seed n).length = n := by
  unfold mtDoubles
  rw [randPairs_length, mtOutputs_length]
  omega

theorem embedOne_length (svc : EmbeddingsService) (t : String) :
    (svc.embedOne t).length = svc.dim := by
  unfold EmbeddingsService.embedOne normalizeVec rawVec
  rw [List.length_map, List.length_map, mtDoubles_length]

theorem reachable_none_metas (s : VectorStore) (hs : ReachableStore s)
    (hv : s.vectors = none) : s.metas = [] := by
  induction hs with
  | new dim => rfl
  | step s v ms s' _ hadd ih =>
    unfold VectorStore.add at hadd
    split at hadd
    · exact absurd (congrArg Prod.snd hadd) (by simp)
    · split at hadd
      · exact absurd (congrArg Prod.snd hadd) (by simp)
      · have := congrArg Prod.fst hadd
        simp at this
        rw [← this] at hv
        simp at hv

theorem argsortDesc_length (sims : List ℝ) : (argsortDesc sims).length = sims.length := by
  unfold argsortDesc
  rw [List.length_insertionSort, List.length_range]

theorem argsortDesc_sorted (sims : List ℝ) :
    (argsortDesc sims).Pairwise
      (fun i j => sims.getD j 0 < sims.getD i 0 ∨
        (sims.getD i 0 = sims.getD j 0 ∧ i ≤ j)) := by
  unfold argsortDesc
  haveI ht : IsTotal ℕ (fun i j => sims.getD j 0 < sims.getD i 0 ∨
      (sims.getD i 0 = sims.getD j 0 ∧ i ≤ j)) := by
    constructor
    intro i j
    rcases lt_trichotomy (sims.getD i 0) (sims.getD j 0) with h | h | h
    · exact Or.inr (Or.inl h)
    · rcases le_total i j with hij | hij
      · exact Or.inl (Or.inr ⟨h, hij⟩)
      · exact Or.inr (Or.inr ⟨h.symm, hij⟩)
    · exact Or.inl (Or.inl h)
  haveI htr : IsTrans ℕ (fun i j => sims.getD j 0 < sims.getD i 0 ∨
      (sims.getD i 0 = sims.getD j 0 ∧ i ≤ j)) := by
    constructor
    intro a b c hab hbc
    rcases hab with hab | ⟨hab, hab2⟩
    · rcases hbc with hbc | ⟨hbc, _⟩
      · exact Or.inl (lt_trans hbc hab)
      · exact Or.inl (hbc ▸ hab)
    · rcases hbc with hbc | ⟨hbc, hbc2⟩
      · exact Or.inl (hab ▸ hbc)
      · exact Or.inr ⟨hab.trans hbc, hab2.trans hbc2⟩
  exact @List.sorted_insertionSort ℕ _ (fun _ _ => Classical.propDecidable _) ht htr _

/-- For any result the Naive search returns, the length is at most
`min k N` and the scores are in descending order.  (The order among equal
scores additionally follows this file's stable model of `np.argsort`, but
NumPy's default quicksort does not document a tie order, so no theorem here
asserts the tie order of the program itself.) -/
theorem search_result_sorted (s : VectorStore) (q : NpMat) (k : ℕ)
    (m : List (List ℝ)) (res : List (ℝ × MetaR))
    (hv : s.vectors = some m) (hres : s.search q k = .ok res) :
    res.length ≤ min k m.length ∧ res.Pairwise (fun a b => b.1 ≤ a.1) := by
  unfold VectorStore.search at hres
  rw [hv] at hres
  split at hres
  · cases hres
  · simp only [] at hres
    split at hres
    · cases hres
      constructor
      · simp
      · simp
    · cases hres
      constructor
      · rw [List.length_map, List.length_take, argsortDesc_length,
          List.length_map, List.length_map]
      · refine List.Pairwise.map _ ?_
          (((argsortDesc_sorted _).sublist (List.take_sublist _ _)))
        intro i j hij
        rcases hij with hij | ⟨hij, _⟩
        · exact le_of_lt hij
        · exact le_of_eq hij.symm

/-! ### Claim theorems -/

/-- Claim C5: for every text and `chunk_size > overlap >= 0`, the chunker emits the
windows `text[start : start + chunk_size]` whose start offsets are exactly
`0, step, 2*step, ...` with `step = chunk_size - overlap`, truncated at
`len(text)`, with windows blank after whitespace trimming dropped silently;
in particular `chunk_size=10, overlap=2` on "abcdefghijklmno" yields the
chunks ["abcdefghij", "ijklmno"] in that order. -/
theorem C5_chunk_windows (p text : String) (size overlap : ℕ) (h : overlap < size) :
    (split_texts [⟨p, text⟩] size overlap =
      .ok ((((chunkStarts text.data.length (size - overlap)).map
          (fun st => windowAt text.data size st)).filter nonblank).map
        (fun cs => Chunk.mk p (String.mk cs)))) ∧
    split_texts [⟨"doc", "abcdefghijklmno"⟩] 10 2 =
      .ok [⟨"doc", "abcdefghij"⟩, ⟨"doc", "ijklmno"⟩] := by
  refine ⟨split_texts_single p text size overlap h, ?_⟩
  rw [split_texts_single "doc" "abcdefghijklmno" 10 2 (by omega)]
  simp only [Except.ok.injEq]
  decide

/-- Witness for C5 at `text="ab"`, `chunk_size=2`, `overlap=0`. -/
theorem C5_chunk_windows_witness :
    (0 : ℕ) < 2 ∧
    ((split_texts [⟨"x", "ab"⟩] 2 0 =
        .ok ((((chunkStarts "ab".data.length (2 - 0)).map
            (fun st => windowAt "ab".data 2 st)).filter nonblank).map
          (fun cs => Chunk.mk "x" (String.mk cs)))) ∧
      split_texts [⟨"doc", "abcdefghijklmno"⟩] 10 2 =
        .ok [⟨"doc", "abcdefghij"⟩, ⟨"doc", "ijklmno"⟩]) :=
  ⟨by decide, C5_chunk_windows "x" "ab" 2 0 (by decide)⟩

/-- Claim C6: the fallback embedding is deterministic: its result does not depend
on the process-global NumPy generator state (so two calls, in the same
process or across restarts, give bit-identical results), and the per-text
vector is a pure function of the text's UTF-8 bytes (hash-derived 32-bit
seed, seeded pseudo-random draw of `dim` values, then normalization). -/
theorem C6_fallback_deterministic (svc : EmbeddingsService) (g g' : NpGlobalRandom)
    (ts : List String) :
    svc.embed g ts = svc.embed g' ts ∧
    ∀ t t', utf8Bytes t = utf8Bytes t' → svc.embedOne t = svc.embedOne t' := by
  refine ⟨rfl, fun t t' ht => ?_⟩
  unfold EmbeddingsService.embedOne rawVec
  rw [ht]

/-- Witness for C6 at the text "hello" and two distinct global states. -/
theorem C6_fallback_deterministic_witness :
    (mkEmbeddingsService "all-MiniLM-L6-v2").embed ⟨[]⟩ ["hello"] =
        (mkEmbeddingsService "all-MiniLM-L6-v2").embed ⟨[0, 1]⟩ ["hello"] ∧
      (mkEmbeddingsService "all-MiniLM-L6-v2").embedOne "hello" =
        (mkEmbeddingsService "all-MiniLM-L6-v2").embedOne "hello" :=
  ⟨(C6_fallback_deterministic (mkEmbeddingsService "all-MiniLM-L6-v2") ⟨[]⟩ ⟨[0, 1]⟩
      ["hello"]).1,
   (C6_fallback_deterministic (mkEmbeddingsService "all-MiniLM-L6-v2") ⟨[]⟩ ⟨[0, 1]⟩
      ["hello"]).2 "hello" "hello" rfl⟩

/-- Claim C7 counterexample: the fallback vector for "hello" does not have
Euclidean norm exactly 1 — the code divides by `norm(v) + 1e-9`, so the norm
is `n / (n + 1e-9) < 1` in exact arithmetic. -/
theorem C7_counterexample :
    l2norm ((mkEmbeddingsService "all-MiniLM-L6-v2").embedOne "hello") ≠ 1 := by
  unfold EmbeddingsService.embedOne
  exact ne_of_lt (l2norm_normalizeVec_lt_one _)

/-- Claim C7 amended: every fallback vector has Euclidean norm
`‖v‖ / (‖v‖ + 1e-9)`, which is strictly less than 1 (approximately 1 when
`‖v‖` is large against `1e-9`, but never exactly 1). -/
theorem C7_fallback_norm (svc : EmbeddingsService) (t : String) :
    l2norm (svc.embedOne t) =
      l2norm (rawVec svc t) / (l2norm (rawVec svc t) + 1e-9) ∧
    l2norm (svc.embedOne t) < 1 :=
  ⟨l2norm_normalizeVec _, l2norm_normalizeVec_lt_one _⟩

/-- Claim C9 amended: an ingest run that loads zero documents logs and returns
without raising and without writing any index files. -/
theorem C9_no_docs (g : NpGlobalRandom) (cfg : AppConfig) :
    run_ingest g [] cfg = .ok none := by
  simp [run_ingest]

/-- Claim C9 counterexample: with one document whose every window is blank after
trimming, chunking yields no chunks and the embed step raises `ValueError`
(`np.vstack` of an empty list), so the ingest pipeline raises instead of
returning cleanly. -/
theorem C9_counterexample :
    run_ingest ⟨[]⟩ [⟨"a.txt", "   "⟩] ⟨10, 2, "all-MiniLM-L6-v2"⟩ =
      .error "ValueError: need at least one array to concatenate" := by
  have hsplit : split_texts [⟨"a.txt", "   "⟩] 10 2 = .ok [] := by
    rw [split_texts_single "a.txt" "   " 10 2 (by omega)]
    simp only [Except.ok.injEq]
    decide
  unfold run_ingest
  rw [if_neg (by decide)]
  simp only [hsplit]
  simp [EmbeddingsService.embed]

/-- Claim C4: `add` raises the dimension-mismatch `ValueError` iff the vector
argument is not a two-dimensional matrix with column count `dim`, or the
metadata count differs from the row count; on raise the store is unchanged. -/
theorem C4_add_raises_iff (s : VectorStore) (v : NpMat) (ms : List MetaR) :
    ((s.add v ms).2 ≠ none ↔
      (v.shape.length ≠ 2 ∨ v.shape.getD 1 0 ≠ s.dim ∨ ms.length ≠ v.shape.getD 0 0)) ∧
    ((s.add v ms).2 ≠ none → (s.add v ms).1 = s) := by
  unfold VectorStore.add
  by_cases h1 : v.shape.length ≠ 2 ∨ v.shape.getD 1 0 ≠ s.dim
  · rw [if_pos h1]
    refine ⟨⟨fun _ => ?_, fun _ => by simp⟩, fun _ => rfl⟩
    rcases h1 with h1 | h1
    · exact Or.inl h1
    · exact Or.inr (Or.inl h1)
  · rw [if_neg h1]
    push_neg at h1
    by_cases h2 : ms.length ≠ v.shape.getD 0 0
    · rw [if_pos h2]
      exact ⟨⟨fun _ => Or.inr (Or.inr h2), fun _ => by simp⟩, fun _ => rfl⟩
    · rw [if_neg h2]
      push_neg at h2
      refine ⟨⟨fun hc => absurd rfl hc, fun hc => ?_⟩, fun hc => absurd rfl hc⟩
      rcases hc with hc | hc | hc
      · exact absurd h1.1 hc
      · exact absurd h1.2 hc
      · exact absurd h2 hc

/-- Witness for C4 at a 1x3 matrix added to a store of dimension 4. -/
theorem C4_add_raises_iff_witness :
    (((VectorStore.new 4).add ⟨[1, 3], [[1, 0, 0]]⟩ [⟨"a", "b"⟩]).2 ≠ none) ∧
    ((VectorStore.new 4).add ⟨[1, 3], [[1, 0, 0]]⟩ [⟨"a", "b"⟩]).1 = VectorStore.new 4 := by
  have h := C4_add_raises_iff (VectorStore.new 4) ⟨[1, 3], [[1, 0, 0]]⟩ [⟨"a", "b"⟩]
  have he := h.1.mpr (by decide)
  exact ⟨he, h.2 he⟩

/-- Claim C1 counterexample: loading a directory holding `meta.json` with one
record but no `vectors.npy` leaves one metadata entry next to a zero-row
vector matrix, violating the parallel-arrays invariant. -/
theorem C1_counterexample :
    ¬ storeInv ((VectorStore.new 2).load ⟨some [⟨"a.txt", "hello"⟩], none⟩) := by
  unfold storeInv VectorStore.load VectorStore.new
  decide

/-- Claim C1 amended: the parallel-arrays invariant `len(vectors) = len(metas)`
holds after construction, is preserved by every successful `add` (for a
rectangular NumPy argument) and by `save`/`search` (which do not mutate the
parallel lists), and by a `load` of a directory written by `save` from an
invariant store; a load of a directory in which only some of the persisted
files are present can violate it. -/
theorem C1_invariant_amended :
    (∀ dim, storeInv (VectorStore.new dim)) ∧
    (∀ (s : VectorStore) (v : NpMat) (ms : List MetaR) (s' : VectorStore),
      storeInv s → v.data.length = v.shape.getD 0 0 →
      s.add v ms = (s', none) → storeInv s') ∧
    (∀ s t : VectorStore, storeInv t → storeInv (s.load t.save)) := by
  refine ⟨fun dim => rfl, ?_, ?_⟩
  · intro s v ms s' hinv hwf hadd
    unfold VectorStore.add at hadd
    split at hadd
    · simp at hadd
    · split at hadd
      · simp at hadd
      · rename_i hc1 hc2
        push_neg at hc2
        have hs' := congrArg Prod.fst hadd
        simp only at hs'
        rw [← hs']
        unfold storeInv at hinv ⊢
        cases hv : s.vectors with
        | none =>
          rw [hv] at hinv
          simp only [hv, Option.getD_none, List.length_nil] at hinv
          simp only [hv, Option.getD_some, List.length_append]
          omega
        | some m =>
          rw [hv] at hinv
          simp only [Option.getD_some] at hinv
          simp only [hv, Option.getD_some, List.length_append]
          omega
  · intro s t hinv
    unfold storeInv at hinv ⊢
    unfold VectorStore.load VectorStore.save
    simpa using hinv

/-- Witness for C1 at a concrete one-record store. -/
theorem C1_invariant_amended_witness :
    storeInv (VectorStore.new 3) ∧
    storeInv (⟨2, [⟨"a", "b"⟩], some [[1, 0]]⟩ : VectorStore) ∧
    storeInv ((VectorStore.new 7).load
      (VectorStore.save ⟨2, [⟨"a", "b"⟩], some [[1, 0]]⟩)) := by
  refine ⟨C1_invariant_amended.1 3, ?_, ?_⟩
  · exact C1_invariant_amended.2.1 (VectorStore.new 2) ⟨[1, 2], [[1, 0]]⟩ [⟨"a", "b"⟩]
      _ rfl rfl rfl
  · exact C1_invariant_amended.2.2 (VectorStore.new 7) ⟨2, [⟨"a", "b"⟩], some [[1, 0]]⟩ rfl

/-- Claim C2: for every index built by adding vectors with metadata, saving it and
loading the directory into a freshly constructed store of the same
dimension, every search on the loaded instance returns the same ranked
`(score, meta)` sequence, with scores exactly equal (hence within any
tolerance), as the same search on the original in-memory instance. -/
theorem C2_roundtrip (s : VectorStore) (hs : ReachableStore s) (q : NpMat) (k : ℕ) :
    ((VectorStore.new s.dim).load s.save).search q k = s.search q k := by
  cases hv : s.vectors with
  | some m =>
    have heq : (VectorStore.new s.dim).load s.save = s := by
      obtain ⟨dim, metas, vectors⟩ := s
      simp only at hv
      subst hv
      rfl
    rw [heq]
  | none =>
    have hm : s.metas = [] := reachable_none_metas s hs hv
    obtain ⟨dim, metas, vectors⟩ := s
    simp only at hv hm
    subst hv
    subst hm
    unfold VectorStore.search VectorStore.load VectorStore.save VectorStore.new
    by_cases hq : q.shape.length ≠ 2 ∨ q.shape.getD 0 0 ≠ 1 ∨ q.shape.getD 1 0 ≠ dim
    · rw [if_pos hq, if_pos hq]
    · rw [if_neg hq, if_neg hq]
      rfl

/-- Witness for C2 at a one-record store of dimension 2. -/
theorem C2_roundtrip_witness :
    ((VectorStore.new 2).load (VectorStore.save ⟨2, [⟨"a", "b"⟩], some [[1, 0]]⟩)).search
        ⟨[1, 2], [[0, 1]]⟩ 5 =
      VectorStore.search ⟨2, [⟨"a", "b"⟩], some [[1, 0]]⟩ ⟨[1, 2], [[0, 1]]⟩ 5 := by
  have hr : ReachableStore (⟨2, [⟨"a", "b"⟩], some [[1, 0]]⟩ : VectorStore) :=
    ReachableStore.step (VectorStore.new 2) ⟨[1, 2], [[1, 0]]⟩ [⟨"a", "b"⟩] _
      (ReachableStore.new 2) rfl
  exact C2_roundtrip _ hr _ _

/-- Claim C8: `load` never fails when the metadata or vector file is absent — it
starts with an empty metadata list or a zero-row matrix of the store's
dimension instead; search on a fresh or loaded-empty index returns `[]` for
every `k`; and the retrieval pipeline against a nonexistent or empty index
directory returns an empty content list rather than raising. -/
theorem C8_missing_files_empty_search :
    (∀ (s : VectorStore) (d : IndexDir), d.meta = none → (s.load d).metas = []) ∧
    (∀ (s : VectorStore) (d : IndexDir), d.vecs = none →
      (s.load d).vectors = some [] ∧ (s.load d).dim = s.dim) ∧
    (∀ (dim k : ℕ) (q : NpMat), q.shape = [1, dim] →
      (VectorStore.new dim).search q k = .ok []) ∧
    (∀ (dim k : ℕ) (q : NpMat), q.shape = [1, dim] →
      ((VectorStore.new dim).load IndexDir.empty).search q k = .ok []) ∧
    (∀ (g : NpGlobalRandom) (svc : EmbeddingsService) (query : String) (topk : ℕ),
      run_retrieve g svc query IndexDir.empty topk = .ok []) := by
  refine ⟨?_, ?_, ?_, ?_, ?_⟩
  · intro s d h
    unfold VectorStore.load
    rw [h]
    rfl
  · intro s d h
    unfold VectorStore.load
    rw [h]
    exact ⟨rfl, rfl⟩
  · intro dim k q hq
    unfold VectorStore.search VectorStore.new
    rw [if_neg (by simp [hq])]
  · intro dim k q hq
    unfold VectorStore.search VectorStore.load VectorStore.new IndexDir.empty
    rw [if_neg (by simp [hq])]
    rfl
  · intro g svc query topk
    have hemb : svc.embed g [query] = .ok [svc.embedOne query] := by
      unfold EmbeddingsService.embed
      rfl
    unfold run_retrieve
    rw [hemb]
    unfold VectorStore.search VectorStore.load VectorStore.new IndexDir.empty
    simp

/-- Witness for C8 at concrete empty stores and a concrete query. -/
theorem C8_missing_files_empty_search_witness :
    ((VectorStore.new 9).load IndexDir.empty).metas = [] ∧
    ((VectorStore.new 9).load IndexDir.empty).vectors = some [] ∧
    (VectorStore.new 2).search ⟨[1, 2], [[0, 1]]⟩ 5 = .ok [] ∧
    ((VectorStore.new 2).load IndexDir.empty).search ⟨[1, 2], [[0, 1]]⟩ 5 = .ok [] ∧
    run_retrieve ⟨[]⟩ (mkEmbeddingsService "all-MiniLM-L6-v2") "hi" IndexDir.empty 5 =
      .ok [] :=
  ⟨C8_missing_files_empty_search.1 (VectorStore.new 9) IndexDir.empty rfl,
   (C8_missing_files_empty_search.2.1 (VectorStore.new 9) IndexDir.empty rfl).1,
   C8_missing_files_empty_search.2.2.1 2 5 ⟨[1, 2], [[0, 1]]⟩ rfl,
   C8_missing_files_empty_search.2.2.2.1 2 5 ⟨[1, 2], [[0, 1]]⟩ rfl,
   C8_missing_files_empty_search.2.2.2.2 ⟨[]⟩ (mkEmbeddingsService "all-MiniLM-L6-v2")
     "hi" 5⟩

end RagStore
